import Mathlib

/-!
Verification of the text-extraction heuristics of a film-scraping program
(`parse.py`) against its natural-language specification.

The Python source is shallowly embedded: pure string helpers become Lean
functions on `List Char` (wrapped into `String` at the interface), the
HTML soup becomes an inductive `Node` tree, BeautifulSoup queries become
traversals of that tree, network fetching becomes an explicit
`String → Option Node` parameter, and Python exceptions become an
`Except` result.
-/

set_option maxRecDepth 10000

/-! ## Character classes (ASCII / Latin-1 semantics of the Python string ops) -/

/-- Whitespace as recognised by Python's `str.split()` / `str.strip()`
(restricted to the characters that can occur in this domain). -/
def isSpaceChar (c : Char) : Bool :=
  c = ' ' || c = '\t' || c = '\n' || c = '\r' || c = '\x0b' || c = '\x0c' || c = '\u0085' || c = '\u00A0'

/-- Word character for the regex `\b` boundary: `[A-Za-z0-9_]`. -/
def isWordChar (c : Char) : Bool :=
  c.isAlpha || c.isDigit || c = '_'

/-- Characters allowed after `$` by the amount regex `\$[\d,\.]+`. -/
def isAmtChar (c : Char) : Bool :=
  c.isDigit || c = ',' || c = '.'

/-! ## Python string primitives -/

/-- Python `str.strip()` on a character list. -/
def pyStripL (l : List Char) : List Char :=
  ((l.dropWhile isSpaceChar).reverse.dropWhile isSpaceChar).reverse

/-- Python `str.strip()`. -/
def pyStrip (s : String) : String :=
  ⟨pyStripL s.data⟩

/-- Worker for `str.split()`: split on runs of whitespace, discarding
empty pieces.  `acc` holds the current word, reversed. -/
def splitWSGo : List Char → List Char → List (List Char)
  | [], acc => if acc = [] then [] else [acc.reverse]
  | c :: rest, acc =>
    if isSpaceChar c then
      if acc = [] then splitWSGo rest [] else acc.reverse :: splitWSGo rest []
    else
      splitWSGo rest (c :: acc)

/-- Python `str.split()` (no argument): whitespace-delimited words. -/
def splitWSL (l : List Char) : List (List Char) :=
  splitWSGo l []

/-- Python `" ".join(words)` on character lists. -/
def joinSpace : List (List Char) → List Char
  | [] => []
  | [w] => w
  | w :: ws => w ++ ' ' :: joinSpace ws

/-- Python `" ".join(text.split())`: collapse whitespace runs to single spaces
and trim. -/
def collapseWS (l : List Char) : List Char :=
  joinSpace (splitWSL l)

/-- Worker for `re.sub(r'\[\d+\]', '', text)`.  The second argument is
the pending candidate marker: `none` when not inside `[digits`, and
`some ds` when a `[` followed by the (reversed) digits `ds` has been
read but not yet resolved. -/
def stripFootnoteGo : List Char → Option (List Char) → List Char
  | [], none => []
  | [], some ds => '[' :: ds.reverse
  | c :: rest, none =>
    if c = '[' then stripFootnoteGo rest (some [])
    else c :: stripFootnoteGo rest none
  | c :: rest, some ds =>
    if c.isDigit then stripFootnoteGo rest (some (c :: ds))
    else if c = ']' && decide (ds ≠ []) then stripFootnoteGo rest none
    else if c = '[' then ('[' :: ds.reverse) ++ stripFootnoteGo rest (some [])
    else ('[' :: ds.reverse) ++ c :: stripFootnoteGo rest none

/-- Python `re.sub(r'\[\d+\]', '', text)`: delete every bracketed-integer
substring (left to right, non-overlapping). -/
def stripFootnotesL (l : List Char) : List Char :=
  stripFootnoteGo l none

/-- The footnote-stripping pass of the Normalizer, on `String`. -/
def stripFootnotes (s : String) : String :=
  ⟨stripFootnotesL s.data⟩

/-- Python `clean_text` on a character list: strip footnote markers, then
collapse whitespace. -/
def cleanTextL (l : List Char) : List Char :=
  collapseWS (stripFootnotesL l)

/-- Python `clean_text(text)`: remove citation markers like `[2]` and extra
whitespace (source lines 7–10). -/
def clean_text (s : String) : String :=
  ⟨cleanTextL s.data⟩

/-- Python `fix_glued_names` on a character list: insert a space wherever a
lowercase letter is immediately followed by an uppercase letter
(`re.sub(r'(?<=[a-z])(?=[A-Z])', ' ', text)`). -/
def fixGluedL : List Char → List Char
  | [] => []
  | [c] => [c]
  | a :: b :: rest =>
    if a.isLower && b.isUpper then a :: ' ' :: fixGluedL (b :: rest)
    else a :: fixGluedL (b :: rest)

/-- Python `fix_glued_names(text)` (source lines 18–23). -/
def fix_glued_names (s : String) : String :=
  ⟨fixGluedL s.data⟩

/-! ## HTML model

A parsed markup fragment.  Elements keep only the attributes the program
reads: the tag name, the raw `class` attribute string, and the `href`
attribute. -/

inductive Node where
  | text : String → Node
  | elem : (name : String) → (cls : Option String) → (href : Option String) → (children : List Node) → Node

/-- Does the node match a given tag name (text nodes match nothing)? -/
def matchName (nm : String) : Node → Bool
  | .elem n _ _ _ => n = nm
  | .text _ => false

/-- Is the node a `<sup>` element? -/
def Node.isSup : Node → Bool
  | .elem n _ _ _ => n = "sup"
  | .text _ => false

/-- Direct children of an element (a text node has none). -/
def Node.childNodes : Node → List Node
  | .text _ => []
  | .elem _ _ _ ch => ch

/-- The `href` attribute, as `tag.get("href")`. -/
def Node.hrefOf : Node → Option String
  | .elem _ _ h _ => h
  | .text _ => none

mutual
/-- Python `remove_sup_tags(tag)`: the tree with every `<sup>` descendant
decomposed (source lines 12–16). -/
def remove_sup_tags : Node → Node
  | .text s => .text s
  | .elem n c h ch => .elem n c h (removeSupList ch)

/-- Python `remove_sup_tags` mapped over a child list. -/
def removeSupList : List Node → List Node
  | [] => []
  | x :: xs => if x.isSup then removeSupList xs else remove_sup_tags x :: removeSupList xs
end

mutual
/-- All descendant nodes in document (preorder) order, the iteration
order of BeautifulSoup's `find` / `find_all`. -/
def descendants : Node → List Node
  | .text _ => []
  | .elem _ _ _ ch => descendantsList ch

/-- Descendants of a child list, in document order. -/
def descendantsList : List Node → List Node
  | [] => []
  | x :: xs => x :: (descendants x ++ descendantsList xs)
end

mutual
/-- The raw text-node strings of a fragment, in document order. -/
def texts : Node → List String
  | .text s => [s]
  | .elem _ _ _ ch => textsList ch

/-- Raw text-node strings of a child list. -/
def textsList : List Node → List String
  | [] => []
  | x :: xs => texts x ++ textsList xs
end

/-- Python `tag.get_text()`: concatenation of all text nodes. -/
def getTextRaw (t : Node) : String :=
  String.join (texts t)

/-- Python `tag.stripped_strings`: each text node stripped, empties dropped. -/
def strippedTexts (t : Node) : List String :=
  ((texts t).map pyStrip).filter (fun s => s ≠ "")

/-- Python `tag.get_text(strip=True)`. -/
def getTextStrip (t : Node) : String :=
  String.join (strippedTexts t)

/-- Python `tag.get_text(" ", strip=True)`. -/
def getTextSepStrip (t : Node) : String :=
  String.intercalate " " (strippedTexts t)

/-- Python `tag.find(nm)`: first descendant element with the given name. -/
def findFirst (nm : String) (t : Node) : Option Node :=
  (descendants t).find? (matchName nm)

/-- Python `tag.find_all(nm)`: all descendant elements with the given name. -/
def findAll (nm : String) (t : Node) : List Node :=
  (descendants t).filter (matchName nm)

/-- ASCII lowercasing, `str.lower()`. -/
def lowerStr (s : String) : String :=
  ⟨s.data.map Char.toLower⟩

/-- Is `pat` a prefix of `l`? -/
def isPrefixL (pat l : List Char) : Bool :=
  List.isPrefixOf pat l

/-- Substring containment on character lists (Python's `in`). -/
def containsSubL (pat : List Char) : List Char → Bool
  | [] => pat.isEmpty
  | c :: rest => isPrefixL pat (c :: rest) || containsSubL pat rest

/-- Substring containment on strings (Python's `pat in s`). -/
def containsSubStr (pat s : String) : Bool :=
  containsSubL pat.data s.data

/-- Does the element's `class` attribute, split on whitespace, contain
the given token (BeautifulSoup `class_="tok"` matching)? -/
def hasClassToken (tok : String) : Node → Bool
  | .elem _ (some c) _ _ => (splitWSL c.data).contains tok.data
  | _ => false

/-- A `<table class="wikitable ...">` element, as matched by
`find_all("table", class_="wikitable")`. -/
def isWikitable (n : Node) : Bool :=
  matchName "table" n && hasClassToken "wikitable" n

/-- A table matched by `find("table", class_=lambda c: c and "infobox" in c)`:
the class attribute is present, truthy, and contains `"infobox"`. -/
def isInfoboxTable (n : Node) : Bool :=
  matchName "table" n &&
    (match n with
     | .elem _ (some c) _ _ => decide (c ≠ "") && containsSubStr "infobox" c
     | _ => false)

/-- A `<td>` or `<th>` element, as matched by `find_all(["td", "th"])`. -/
def isCellTag (n : Node) : Bool :=
  matchName "td" n || matchName "th" n

/-- Does the fragment contain a `<sup>` descendant? -/
def hasSup (t : Node) : Bool :=
  (descendants t).any Node.isSup

/-! ## Field extractors -/

/-- The `for child in td.children` loop of
`extract_first_value_from_cell`: skip style/script tags, return the
first nonempty (cleaned) text. -/
def firstChildLoop : List Node → Option String
  | [] => none
  | child :: rest =>
    match child with
    | .text s =>
      if pyStrip s ≠ "" then some (clean_text (pyStrip s)) else firstChildLoop rest
    | .elem n _ _ _ =>
      if n = "style" || n = "script" then firstChildLoop rest
      else if getTextSepStrip child ≠ "" then some (clean_text (getTextSepStrip child))
      else firstChildLoop rest

/-- Python `extract_first_value_from_cell(td)` (source lines 25–43). -/
def extract_first_value_from_cell (td : Node) : String :=
  let td' := remove_sup_tags td
  match firstChildLoop td'.childNodes with
  | some v => v
  | none => clean_text (getTextSepStrip td')

/-- Python `extract_director(td)` (source lines 45–52). -/
def extract_director (td : Node) : String :=
  let td' := remove_sup_tags td
  match findFirst "a" td' with
  | some a => fix_glued_names (clean_text (getTextStrip a))
  | none => fix_glued_names (extract_first_value_from_cell td')

/-- Python `extract_country(td)` (source lines 54–61). -/
def extract_country (td : Node) : String :=
  let td' := remove_sup_tags td
  match findFirst "a" td' with
  | some a => fix_glued_names (clean_text (getTextStrip a))
  | none => fix_glued_names (extract_first_value_from_cell td')

/-- First segment of `re.split(r'[\n;]', text)`. -/
def firstSegNLSemi (l : List Char) : List Char :=
  l.takeWhile (fun c => !(c = '\n' || c = ';'))

/-- First segment of a split on semicolons only. -/
def firstSegSemi (l : List Char) : List Char :=
  l.takeWhile (fun c => !(c = ';'))

/-- Numeric value of a digit character. -/
def digitVal (c : Char) : Nat :=
  c.toNat - 48

/-- The year alternation `1[89]\d{2}|20\d{2}` tested on four characters. -/
def yearPat (c₁ c₂ c₃ c₄ : Char) : Bool :=
  c₃.isDigit && c₄.isDigit &&
    ((c₁ = '1' && (c₂ = '8' || c₂ = '9')) || (c₁ = '2' && c₂ = '0'))

/-- Scanner for `re.search(r'\b(1[89]\d{2}|20\d{2})\b', s)`: `prev` is
the character just before the current position (`none` at the start). -/
def findYearGo (prev : Option Char) : List Char → Option Nat
  | c₁ :: c₂ :: c₃ :: c₄ :: rest =>
    if (match prev with
        | none => true
        | some p => !isWordChar p) &&
       yearPat c₁ c₂ c₃ c₄ &&
       (match rest with
        | [] => true
        | r :: _ => !isWordChar r) then
      some (1000 * digitVal c₁ + 100 * digitVal c₂ + 10 * digitVal c₃ + digitVal c₄)
    else
      findYearGo (some c₁) (c₂ :: c₃ :: c₄ :: rest)
  | _ => none

/-- Leftmost match of the year regex, as an integer. -/
def findYear (l : List Char) : Option Nat :=
  findYearGo none l

/-- Python `extract_release_year(td)` (source lines 63–72). -/
def extract_release_year (td : Node) : Option Nat :=
  let td' := remove_sup_tags td
  let text := clean_text (getTextSepStrip td')
  findYear (firstSegNLSemi text.data)

/-- Variant of `extract_release_year` whose segment split uses only the
semicolon delimiter (the newline alternative removed). -/
def extract_release_year_semi (td : Node) : Option Nat :=
  let td' := remove_sup_tags td
  let text := clean_text (getTextSepStrip td')
  findYear (firstSegSemi text.data)

/-- Scanner for `re.search(r'(\$[\d,\.]+)', s)`: on success returns the
matched amount (with its `$`) and the text after the match. -/
def findAmount : List Char → Option (List Char × List Char)
  | [] => none
  | c :: rest =>
    if c = '$' then
      match rest.takeWhile isAmtChar with
      | [] => findAmount rest
      | run => some ('$' :: run, rest.dropWhile isAmtChar)
    else
      findAmount rest

/-- Python `combined_text.replace('\xa0', ' ')`. -/
def replaceNbsp (l : List Char) : List Char :=
  l.map (fun c => if c = '\u00A0' then ' ' else c)

/-- The part of `extract_box_office` that runs on the cell's joined
stripped text fragments (everything after `td.stripped_strings`). -/
def boxOfficeFromFragments (frs : List String) : String :=
  let combined := String.intercalate " " frs
  let combined := clean_text ⟨replaceNbsp combined.data⟩
  match findAmount combined.data with
  | some (amount, rest) =>
    let remaining := rest.map Char.toLower
    let unit : List Char :=
      if containsSubL "billion".data remaining then "billion".data
      else if containsSubL "million".data remaining then "million".data
      else []
    ⟨pyStripL (amount ++ ' ' :: unit)⟩
  | none =>
    ⟨pyStripL (combined.data.takeWhile (fun c => !(c = '|' || c = '\n')))⟩

/-- Python `extract_box_office(td)` (source lines 74–94). -/
def extract_box_office (td : Node) : String :=
  let td' := remove_sup_tags td
  boxOfficeFromFragments (strippedTexts td')

/-! ## Stateful views of the extractors

Each extractor begins with `td = remove_sup_tags(td)`, which decomposes
the `<sup>` descendants of the caller's fragment in place.  The `_st`
functions return the extractor's value together with the final state of
the fragment that was passed in. -/

/-- Python `extract_director` with the final state of its argument. -/
def extract_director_st (td : Node) : String × Node :=
  (extract_director td, remove_sup_tags td)

/-- Python `extract_country` with the final state of its argument. -/
def extract_country_st (td : Node) : String × Node :=
  (extract_country td, remove_sup_tags td)

/-- Python `extract_release_year` with the final state of its argument. -/
def extract_release_year_st (td : Node) : Option Nat × Node :=
  (extract_release_year td, remove_sup_tags td)

/-- Python `extract_box_office` with the final state of its argument. -/
def extract_box_office_st (td : Node) : String × Node :=
  (extract_box_office td, remove_sup_tags td)

/-- Python `extract_first_value_from_cell` with the final state of its argument. -/
def extract_first_value_from_cell_st (td : Node) : String × Node :=
  (extract_first_value_from_cell td, remove_sup_tags td)

/-! ## Detail extractor (information box) -/

/-- The four enrichment fields of a film, `None`-initialised. -/
structure FilmInfo where
  director : Option String
  release_year : Option Nat
  country : Option String
  box_office : Option String
deriving DecidableEq

/-- The `info` dictionary as initialised in `get_film_info`. -/
def initInfo : FilmInfo :=
  ⟨none, none, none, none⟩

/-- One iteration of the row loop of `get_film_info` (source lines
120–136): skip rows without a header or data cell, then dispatch on the
header text through the `if`/`elif` chain, overwriting the field. -/
def stepRow (info : FilmInfo) (row : Node) : FilmInfo :=
  match findFirst "th" row with
  | none => info
  | some header =>
    let header_text := lowerStr (getTextStrip header)
    match findFirst "td" row with
    | none => info
    | some data_cell =>
      if containsSubStr "directed by" header_text then
        { info with director := some (extract_director data_cell) }
      else if containsSubStr "release date" header_text then
        { info with release_year := extract_release_year data_cell }
      else if header_text = "country" || header_text = "countries" ||
          header_text = "country of origin" then
        { info with country := some (extract_country data_cell) }
      else if containsSubStr "box office" header_text then
        { info with box_office := some (extract_box_office data_cell) }
      else info

/-- The parsing part of `get_film_info` (source lines 107–137), applied
to the already-fetched detail page. -/
def get_film_info_page (film_soup : Node) : FilmInfo :=
  match (descendants film_soup).find? isInfoboxTable with
  | none => initInfo
  | some infobox => (findAll "tr" infobox).foldl stepRow initInfo

/-- Python `get_film_info(film_url)` (source lines 96–137): fetch the page
(`none` models a raised network error), then parse it. -/
def get_film_info (fetch : String → Option Node) (film_url : String) : Option FilmInfo :=
  (fetch film_url).map get_film_info_page

/-! ## Listing extractor -/

/-- A Python exception escaping `extract_films`. -/
inductive PyErr where
  | attributeError
  | typeError
deriving DecidableEq

/-- One output record (`film_data`). -/
structure Film where
  title : String
  director : Option String
  release_year : Option Nat
  country : Option String
  box_office : Option String
deriving DecidableEq

/-- The title/link selection from the title cell (source lines 180–194):
prefer a link inside `<i>`, then a bare `<i>`, then a direct link, then
the raw cell text. -/
def titleAndLink (title_cell : Node) : String × Option String :=
  match findFirst "i" title_cell with
  | some i_tag =>
    match findFirst "a" i_tag with
    | some a => (clean_text (getTextStrip a), a.hrefOf)
    | none => (clean_text (getTextStrip i_tag), none)
  | none =>
    match findFirst "a" title_cell with
    | some a => (clean_text (getTextStrip a), a.hrefOf)
    | none => (clean_text (getTextStrip title_cell), none)

/-- Detail enrichment of one record (source lines 195–211): follow the
link if present and truthy; a failed fetch is caught and leaves the
detail fields `None`. -/
def buildFilm (fetch : String → Option Node) (title : String) (link : Option String) : Film :=
  match link with
  | some l =>
    if l ≠ "" then
      let full := if l.startsWith "http" then l else "https://en.wikipedia.org" ++ l
      match fetch full with
      | some page =>
        let fi := get_film_info_page page
        ⟨title, fi.director, fi.release_year, fi.country, fi.box_office⟩
      | none => ⟨title, none, none, none, none⟩
    else ⟨title, none, none, none, none⟩
  | none => ⟨title, none, none, none, none⟩

/-- The row loop of `extract_films` (source lines 170–212).  A row with
cells while `title_index` is `None` raises `TypeError` (the comparison
`len(cells) <= title_index`). -/
def processRows (fetch : String → Option Node) (tidx : Option Nat) :
    List Node → Except PyErr (List Film)
  | [] => .ok []
  | row :: rest =>
    let cells := (descendants row).filter isCellTag
    if cells.isEmpty then processRows fetch tidx rest
    else
      match tidx with
      | none => .error .typeError
      | some ti =>
        if cells.length ≤ ti then processRows fetch tidx rest
        else
          match cells[ti]? with
          | none => processRows fetch tidx rest
          | some title_cell =>
            let tl := titleAndLink title_cell
            match processRows fetch tidx rest with
            | .error e => .error e
            | .ok fs => .ok (buildFilm fetch tl.1 tl.2 :: fs)

/-- The caption test of the table-selection loop (source lines 153–157). -/
def captionMatches (t : Node) : Bool :=
  match findFirst "caption" t with
  | some cap => containsSubStr "highest‑grossing films" (lowerStr (getTextRaw cap))
  | none => false

/-- Python `extract_films()` (source lines 139–214), with the two page fetches
made explicit: `soup` is the already-fetched index page and `fetch`
serves the detail pages.  A missing listing table propagates as an
`AttributeError` (`NoneType` has no attribute `find` / `find_all`). -/
def extract_films (fetch : String → Option Node) (soup : Node) : Except PyErr (List Film) :=
  let tables := (descendants soup).filter isWikitable
  let target :=
    match tables.find? captionMatches with
    | some t => some t
    | none => tables.head?
  match target with
  | none => .error .attributeError
  | some target_table =>
    match findFirst "tr" target_table with
    | none => .error .attributeError
    | some header_row =>
      let header_cells := (descendants header_row).filter isCellTag
      let headers_list := header_cells.map (fun c => lowerStr (getTextStrip c))
      let title_index := headers_list.findIdx? (fun h => containsSubStr "title" h)
      let rows := (findAll "tr" target_table).drop 1
      processRows fetch title_index rows

/-! ## Specification-side definitions

These follow the wording of the specification (not the code) and are
compared with the source-derived functions above. -/

/-- Spec wording for one direct child of a cell: `none` when the child
is a style/script element or yields empty text, otherwise the
normalized text (trimmed text of a bare text node, descendant text
joined with spaces for an element). -/
def childValueSpec (child : Node) : Option String :=
  match child with
  | .text s => if pyStrip s ≠ "" then some (clean_text (pyStrip s)) else none
  | .elem n _ _ _ =>
    if n = "style" || n = "script" then none
    else if getTextSepStrip child ≠ "" then some (clean_text (getTextSepStrip child))
    else none

/-- Spec wording of the Cell Value Selector: after footnote-marker
stripping, the first direct child yielding nonempty text, with the
normalized whole-fragment text as fallback. -/
def cellValueSpec (td : Node) : String :=
  let td' := remove_sup_tags td
  (td'.childNodes.findSome? childValueSpec).getD (clean_text (getTextSepStrip td'))

/-- Spec wording of a year token: four digits whose numeric value lies
between 1800 and 2099. -/
def yearSpecPat (c₁ c₂ c₃ c₄ : Char) : Bool :=
  c₁.isDigit && c₂.isDigit && c₃.isDigit && c₄.isDigit &&
    decide (1800 ≤ 1000 * digitVal c₁ + 100 * digitVal c₂ + 10 * digitVal c₃ + digitVal c₄) &&
    decide (1000 * digitVal c₁ + 100 * digitVal c₂ + 10 * digitVal c₃ + digitVal c₄ ≤ 2099)

/-- Scanner for the first standalone 4-digit year in the 1800–2099
range (spec wording of the year search). -/
def findYearSpecGo (prev : Option Char) : List Char → Option Nat
  | c₁ :: c₂ :: c₃ :: c₄ :: rest =>
    if (match prev with
        | none => true
        | some p => !isWordChar p) &&
       yearSpecPat c₁ c₂ c₃ c₄ &&
       (match rest with
        | [] => true
        | r :: _ => !isWordChar r) then
      some (1000 * digitVal c₁ + 100 * digitVal c₂ + 10 * digitVal c₃ + digitVal c₄)
    else
      findYearSpecGo (some c₁) (c₂ :: c₃ :: c₄ :: rest)
  | _ => none

/-- Spec wording of the release-year heuristic: normalize the cell
text, keep the first newline/semicolon segment, return the first
standalone 4-digit year between 1800 and 2099 in it. -/
def release_year_spec (td : Node) : Option Nat :=
  let td' := remove_sup_tags td
  let text := clean_text (getTextSepStrip td')
  findYearSpecGo none (firstSegNLSemi text.data)

/-- The infobox rows a detail page iterates over (empty when no infobox
is found). -/
def rowsOf (page : Node) : List Node :=
  match (descendants page).find? isInfoboxTable with
  | none => []
  | some infobox => findAll "tr" infobox

/-- The lowercased header text and data cell of a row, when the row has
both a header and a data cell. -/
def qualHeader (row : Node) : Option (String × Node) :=
  match findFirst "th" row with
  | none => none
  | some h =>
    match findFirst "td" row with
    | none => none
    | some c => some (lowerStr (getTextStrip h), c)

/-- The director value a row assigns, if it is a director row. -/
def dirUpd (row : Node) : Option (Option String) :=
  match qualHeader row with
  | none => none
  | some (ht, c) =>
    if containsSubStr "directed by" ht then some (some (extract_director c)) else none

/-- The release-year value a row assigns, if it is a release-date row. -/
def yearUpd (row : Node) : Option (Option Nat) :=
  match qualHeader row with
  | none => none
  | some (ht, c) =>
    if containsSubStr "directed by" ht then none
    else if containsSubStr "release date" ht then some (extract_release_year c)
    else none

/-- The country value a row assigns, if it is a country row. -/
def countryUpd (row : Node) : Option (Option String) :=
  match qualHeader row with
  | none => none
  | some (ht, c) =>
    if containsSubStr "directed by" ht then none
    else if containsSubStr "release date" ht then none
    else if ht = "country" || ht = "countries" || ht = "country of origin" then
      some (some (extract_country c))
    else none

/-- The box-office value a row assigns, if it is a box-office row. -/
def boxUpd (row : Node) : Option (Option String) :=
  match qualHeader row with
  | none => none
  | some (ht, c) =>
    if containsSubStr "directed by" ht then none
    else if containsSubStr "release date" ht then none
    else if ht = "country" || ht = "countries" || ht = "country of origin" then none
    else if containsSubStr "box office" ht then some (some (extract_box_office c))
    else none

/-! ## Output-shape predicates for the Normalizer -/

/-- No two adjacent whitespace characters. -/
def noAdjSpace : List Char → Bool
  | [] => true
  | [_] => true
  | a :: b :: rest => !(isSpaceChar a && isSpaceChar b) && noAdjSpace (b :: rest)

/-- Whitespace-normalized shape: no leading or trailing whitespace, no
two adjacent whitespace characters, and every whitespace character is a
plain space. -/
def wsNormalizedL (l : List Char) : Bool :=
  (match l.head? with
   | some c => !isSpaceChar c
   | none => true) &&
  (match l.getLast? with
   | some c => !isSpaceChar c
   | none => true) &&
  noAdjSpace l &&
  l.all (fun c => !isSpaceChar c || c = ' ')

/-! ## Concrete fragments used as inputs -/

/-- A box-office cell whose stripped text fragments are
`["$2", ".264", "billion"]`. -/
def tdBox : Node :=
  .elem "td" none none
    [.text "$2", .elem "span" none none [.text ".264"], .text "billion"]

/-- The release-date cell of the §8 example. -/
def tdRelDate : Node :=
  .elem "td" none none [.text "June 20, 1975 (1975-06-20)\nNovember 1976"]

/-- A release-date cell whose first raw line has no year. -/
def tdNewlineYear : Node :=
  .elem "td" none none [.text "TBD\n1999"]

/-- A country cell with a style element, blank text, and two links. -/
def tdTwoCountries : Node :=
  .elem "td" none none
    [.elem "style" none none [.text ".mw-parser-output"],
     .text "  ",
     .elem "a" none (some "/wiki/France") [.text "France"],
     .text " ",
     .elem "a" none (some "/wiki/Germany") [.text "Germany"]]

/-- A detail page whose infobox has two `Directed by` rows. -/
def pageTwoDirectors : Node :=
  .elem "html" none none
    [.elem "body" none none
      [.elem "table" (some "infobox vevent") none
        [.elem "tr" none none
          [.elem "th" none none [.text "Directed by"],
           .elem "td" none none [.text "Alice Smith"]],
         .elem "tr" none none
          [.elem "th" none none [.text "Directed by"],
           .elem "td" none none [.text "Bob Jones"]]]]]

/-- A listing page with no table at all. -/
def soupNoTable : Node :=
  .elem "html" none none [.elem "body" none none [.text "no tables here"]]

/-- A detail page with no infobox table. -/
def pageNoInfobox : Node :=
  .elem "html" none none [.elem "p" none none [.text "nothing"]]

/-- A cell containing a footnote-marker `<sup>` element. -/
def tdWithSup : Node :=
  .elem "td" none none
    [.text "France", .elem "sup" none none [.text "[1]"]]

/-- A single infobox row having a header cell but no data cell. -/
def rowHeaderOnly : Node :=
  .elem "tr" none none [.elem "th" none none [.text "Directed by"]]

/-- A detail page whose infobox has only a row without a data cell. -/
def pageHeaderOnly : Node :=
  .elem "html" none none [.elem "table" (some "infobox") none [rowHeaderOnly]]

/-- No position where a lowercase letter is immediately followed by an
uppercase letter. -/
def noGlue : List Char → Bool
  | [] => true
  | [_] => true
  | a :: b :: rest => !(a.isLower && b.isUpper) && noGlue (b :: rest)

/-! ## Lemmas on whitespace normalization -/

theorem splitWSGo_words (l : List Char) :
    ∀ (acc : List Char), (∀ c ∈ acc, isSpaceChar c = false) →
      ∀ w ∈ splitWSGo l acc, w ≠ [] ∧ ∀ c ∈ w, isSpaceChar c = false := by
  induction l with
  | nil =>
    intro acc hacc w hw
    simp only [splitWSGo] at hw
    split at hw
    · simp at hw
    · next hne =>
      simp only [List.mem_singleton] at hw
      subst hw
      refine ⟨by simpa using hne, fun c hc => hacc c (by simpa using hc)⟩
  | cons c rest ih =>
    intro acc hacc w hw
    simp only [splitWSGo] at hw
    by_cases hsp : isSpaceChar c
    · rw [if_pos hsp] at hw
      by_cases hae : acc = []
      · rw [if_pos hae] at hw
        exact ih [] (by simp) w hw
      · rw [if_neg hae] at hw
        rcases List.mem_cons.mp hw with h | h
        · subst h
          exact ⟨by simpa using hae, fun c hc => hacc c (by simpa using hc)⟩
        · exact ih [] (by simp) w h
    · rw [if_neg hsp] at hw
      refine ih (c :: acc) ?_ w hw
      intro d hd
      rcases List.mem_cons.mp hd with h | h
      · subst h
        simpa using hsp
      · exact hacc d h

theorem splitWSL_words (l : List Char) :
    ∀ w ∈ splitWSL l, w ≠ [] ∧ ∀ c ∈ w, isSpaceChar c = false :=
  splitWSGo_words l [] (by simp)

theorem noAdjSpace_cons_of_nonspace (a : Char) (l : List Char) (h : isSpaceChar a = false) :
    noAdjSpace (a :: l) = noAdjSpace l := by
  cases l with
  | nil => simp [noAdjSpace]
  | cons b r => simp [noAdjSpace, h]

theorem noAdjSpace_append_nonspace (w l : List Char) (h : ∀ c ∈ w, isSpaceChar c = false) :
    noAdjSpace (w ++ l) = noAdjSpace l := by
  induction w with
  | nil => rfl
  | cons c w' ih =>
    rw [List.cons_append, noAdjSpace_cons_of_nonspace _ _ (h c (by simp))]
    exact ih (fun d hd => h d (by simp [hd]))

theorem joinSpace_ne_nil (w : List Char) (hw : w ≠ []) (ws : List (List Char)) :
    joinSpace (w :: ws) ≠ [] := by
  cases ws with
  | nil => simpa [joinSpace] using hw
  | cons v r => simp [joinSpace]

theorem noAdjSpace_of_nonspace (w : List Char) (h : ∀ c ∈ w, isSpaceChar c = false) :
    noAdjSpace w = true := by
  induction w with
  | nil => rfl
  | cons c w' ih =>
    rw [noAdjSpace_cons_of_nonspace c w' (h c (by simp))]
    exact ih (fun d hd => h d (by simp [hd]))

theorem joinSpace_head (ws : List (List Char))
    (h : ∀ w ∈ ws, w ≠ [] ∧ ∀ c ∈ w, isSpaceChar c = false) :
    ∀ c, (joinSpace ws).head? = some c → isSpaceChar c = false := by
  intro c hc
  cases ws with
  | nil => simp [joinSpace] at hc
  | cons w ws' =>
    obtain ⟨hwne, hwns⟩ := h w (by simp)
    obtain ⟨a, w', rfl⟩ : ∃ a w', w = a :: w' := by
      cases w with
      | nil => exact absurd rfl hwne
      | cons a w' => exact ⟨a, w', rfl⟩
    cases ws' with
    | nil =>
      simp only [joinSpace, List.head?_cons, Option.some.injEq] at hc
      rw [← hc]
      exact hwns a (by simp)
    | cons v rest =>
      have heq : joinSpace ((a :: w') :: v :: rest) = a :: (w' ++ ' ' :: joinSpace (v :: rest)) := rfl
      rw [heq, List.head?_cons, Option.some.injEq] at hc
      rw [← hc]
      exact hwns a (by simp)

theorem joinSpace_getLast (ws : List (List Char))
    (h : ∀ w ∈ ws, w ≠ [] ∧ ∀ c ∈ w, isSpaceChar c = false) :
    ∀ c, (joinSpace ws).getLast? = some c → isSpaceChar c = false := by
  induction ws with
  | nil =>
    intro c hc
    simp [joinSpace] at hc
  | cons w ws' ih =>
    intro c hc
    obtain ⟨hwne, hwns⟩ := h w (by simp)
    cases ws' with
    | nil =>
      have heq : joinSpace [w] = w := rfl
      rw [heq, List.getLast?_eq_getLast w hwne, Option.some.injEq] at hc
      subst hc
      exact hwns _ (List.getLast_mem hwne)
    | cons v rest =>
      have heq : joinSpace (w :: v :: rest) = w ++ ' ' :: joinSpace (v :: rest) := rfl
      rw [heq, List.getLast?_append_cons] at hc
      have hvne : joinSpace (v :: rest) ≠ [] :=
        joinSpace_ne_nil v (h v (by simp)).1 rest
      obtain ⟨b, t', hbt⟩ : ∃ b t', joinSpace (v :: rest) = b :: t' := by
        cases hx : joinSpace (v :: rest) with
        | nil => exact absurd hx hvne
        | cons b t' => exact ⟨b, t', rfl⟩
      rw [hbt, List.getLast?_cons_cons, ← hbt] at hc
      exact ih (fun u hu => h u (by simp [hu])) c hc

theorem joinSpace_noAdj (ws : List (List Char))
    (h : ∀ w ∈ ws, w ≠ [] ∧ ∀ c ∈ w, isSpaceChar c = false) :
    noAdjSpace (joinSpace ws) = true := by
  induction ws with
  | nil => rfl
  | cons w ws' ih =>
    obtain ⟨hwne, hwns⟩ := h w (by simp)
    cases ws' with
    | nil => exact noAdjSpace_of_nonspace w hwns
    | cons v rest =>
      have heq : joinSpace (w :: v :: rest) = w ++ ' ' :: joinSpace (v :: rest) := rfl
      rw [heq, noAdjSpace_append_nonspace _ _ hwns]
      have hvne : joinSpace (v :: rest) ≠ [] :=
        joinSpace_ne_nil v (h v (by simp)).1 rest
      obtain ⟨b, t', hbt⟩ : ∃ b t', joinSpace (v :: rest) = b :: t' := by
        cases hx : joinSpace (v :: rest) with
        | nil => exact absurd hx hvne
        | cons b t' => exact ⟨b, t', rfl⟩
      have hbns : isSpaceChar b = false := by
        refine joinSpace_head (v :: rest) (fun u hu => h u (by simp [hu])) b ?_
        rw [hbt]
        rfl
      have hadj : noAdjSpace (joinSpace (v :: rest)) = true :=
        ih (fun u hu => h u (by simp [hu]))
      rw [hbt] at hadj
      rw [hbt]
      simp [noAdjSpace, hbns, hadj]

theorem joinSpace_all (ws : List (List Char))
    (h : ∀ w ∈ ws, w ≠ [] ∧ ∀ c ∈ w, isSpaceChar c = false) :
    (joinSpace ws).all (fun c => !isSpaceChar c || c = ' ') = true := by
  induction ws with
  | nil => rfl
  | cons w ws' ih =>
    obtain ⟨hwne, hwns⟩ := h w (by simp)
    cases ws' with
    | nil =>
      simp only [joinSpace, List.all_eq_true]
      intro c hc
      simp [hwns c hc]
    | cons v rest =>
      have heq : joinSpace (w :: v :: rest) = w ++ ' ' :: joinSpace (v :: rest) := rfl
      rw [heq, List.all_append]
      simp only [Bool.and_eq_true, List.all_eq_true]
      refine ⟨fun c hc => by simp [hwns c hc], ?_⟩
      intro c hc
      rcases List.mem_cons.mp hc with rfl | hc'
      · simp
      · have := ih (fun u hu => h u (by simp [hu]))
        exact List.all_eq_true.mp this c hc'

theorem joinSpace_wsNormalized (ws : List (List Char))
    (h : ∀ w ∈ ws, w ≠ [] ∧ ∀ c ∈ w, isSpaceChar c = false) :
    wsNormalizedL (joinSpace ws) = true := by
  unfold wsNormalizedL
  simp only [Bool.and_eq_true]
  refine ⟨⟨⟨?_, ?_⟩, ?_⟩, ?_⟩
  · cases hh : (joinSpace ws).head? with
    | none => rfl
    | some c => simp [joinSpace_head ws h c hh]
  · cases hh : (joinSpace ws).getLast? with
    | none => rfl
    | some c => simp [joinSpace_getLast ws h c hh]
  · exact joinSpace_noAdj ws h
  · exact joinSpace_all ws h

theorem cleanTextL_wsNormalized (l : List Char) : wsNormalizedL (cleanTextL l) = true :=
  joinSpace_wsNormalized _ (splitWSL_words _)

theorem cleanTextL_space_is_space (l : List Char) (c : Char) (hc : c ∈ cleanTextL l)
    (hs : isSpaceChar c = true) : c = ' ' := by
  have h := cleanTextL_wsNormalized l
  unfold wsNormalizedL at h
  simp only [Bool.and_eq_true] at h
  have := List.all_eq_true.mp h.2 c hc
  simp only [Bool.or_eq_true, Bool.not_eq_true'] at this
  rcases this with h' | h'
  · rw [hs] at h'
    cases h'
  · simpa using h'

theorem splitWSGo_word_prefix (w : List Char) (hw : ∀ c ∈ w, isSpaceChar c = false) :
    ∀ (l acc : List Char), splitWSGo (w ++ l) acc = splitWSGo l (w.reverse ++ acc) := by
  induction w with
  | nil => intro l acc; simp
  | cons c w' ih =>
    intro l acc
    have hc : isSpaceChar c = false := hw c (by simp)
    rw [List.cons_append]
    show splitWSGo (c :: (w' ++ l)) acc = _
    simp only [splitWSGo, hc, Bool.false_eq_true, if_false]
    rw [ih (fun d hd => hw d (by simp [hd])) l (c :: acc)]
    congr 1
    simp

theorem splitWS_joinSpace (ws : List (List Char))
    (h : ∀ w ∈ ws, w ≠ [] ∧ ∀ c ∈ w, isSpaceChar c = false) :
    splitWSL (joinSpace ws) = ws := by
  induction ws with
  | nil => rfl
  | cons w ws' ih =>
    obtain ⟨hwne, hwns⟩ := h w (by simp)
    cases ws' with
    | nil =>
      have h1 : splitWSGo (w ++ []) [] = splitWSGo [] (w.reverse ++ []) :=
        splitWSGo_word_prefix w hwns [] []
      rw [List.append_nil, List.append_nil] at h1
      have h2 : joinSpace [w] = w := rfl
      rw [splitWSL, h2, h1]
      simp only [splitWSGo]
      rw [if_neg (by simpa using hwne)]
      simp
    | cons v rest =>
      have heq : joinSpace (w :: v :: rest) = w ++ ' ' :: joinSpace (v :: rest) := rfl
      have h1 := splitWSGo_word_prefix w hwns (' ' :: joinSpace (v :: rest)) []
      rw [List.append_nil] at h1
      rw [splitWSL, heq, h1]
      have hsp : isSpaceChar ' ' = true := rfl
      simp only [splitWSGo, hsp, if_true]
      rw [if_neg (by simpa using hwne)]
      rw [List.reverse_reverse]
      have := ih (fun u hu => h u (by simp [hu]))
      rw [splitWSL] at this
      rw [this]

theorem collapseWS_idem (l : List Char) : collapseWS (collapseWS l) = collapseWS l := by
  show joinSpace (splitWSL (joinSpace (splitWSL l))) = joinSpace (splitWSL l)
  rw [splitWS_joinSpace _ (splitWSL_words l)]

theorem splitWSGo_flatten (l : List Char) :
    ∀ acc, (splitWSGo l acc).flatten = acc.reverse ++ l.filter (fun c => !isSpaceChar c) := by
  induction l with
  | nil =>
    intro acc
    simp only [splitWSGo]
    split
    · next hacc => simp [hacc]
    · simp
  | cons c rest ih =>
    intro acc
    by_cases hsp : isSpaceChar c
    · simp only [splitWSGo, hsp, if_true]
      by_cases hae : acc = []
      · rw [if_pos hae, ih []]
        simp [hae, List.filter_cons, hsp]
      · rw [if_neg hae]
        simp only [List.flatten_cons, ih []]
        simp [List.filter_cons, hsp]
    · simp only [splitWSGo, hsp, Bool.false_eq_true, if_false]
      rw [ih (c :: acc)]
      simp [List.filter_cons, hsp]

theorem splitWSL_flatten (l : List Char) :
    (splitWSL l).flatten = l.filter (fun c => !isSpaceChar c) := by
  have := splitWSGo_flatten l []
  simpa [splitWSL] using this

theorem joinSpace_filter (ws : List (List Char))
    (h : ∀ w ∈ ws, ∀ c ∈ w, isSpaceChar c = false) :
    (joinSpace ws).filter (fun c => !isSpaceChar c) = ws.flatten := by
  induction ws with
  | nil => rfl
  | cons w ws' ih =>
    cases ws' with
    | nil =>
      show List.filter _ w = w ++ [].flatten
      rw [List.filter_eq_self.mpr]
      · simp
      · intro c hc
        simp [h w (by simp) c hc]
    | cons v rest =>
      have heq : joinSpace (w :: v :: rest) = w ++ ' ' :: joinSpace (v :: rest) := rfl
      rw [heq, List.filter_append, List.filter_cons]
      have hsp : (!isSpaceChar ' ') = false := rfl
      rw [hsp]
      simp only [if_false, List.flatten_cons]
      rw [List.filter_eq_self.mpr (fun c hc => by simp [h w (by simp) c hc])]
      rw [ih (fun u hu => h u (by simp [hu]))]
      simp

theorem collapseWS_filter (l : List Char) :
    (collapseWS l).filter (fun c => !isSpaceChar c) = l.filter (fun c => !isSpaceChar c) := by
  show (joinSpace (splitWSL l)).filter _ = _
  rw [joinSpace_filter _ (fun w hw => (splitWSL_words l w hw).2), splitWSL_flatten]

/-! ## Lemmas on camelcase repair -/

theorem fixGluedL_head (b : Char) (l : List Char) : ∃ t, fixGluedL (b :: l) = b :: t := by
  cases l with
  | nil => exact ⟨[], rfl⟩
  | cons c r =>
    by_cases h : (b.isLower && c.isUpper) = true
    · exact ⟨' ' :: fixGluedL (c :: r), by simp [fixGluedL, h]⟩
    · exact ⟨fixGluedL (c :: r), by simp [fixGluedL, h]⟩

theorem noGlue_fixGluedL (l : List Char) : noGlue (fixGluedL l) = true := by
  induction l using fixGluedL.induct with
  | case1 => rfl
  | case2 c => rfl
  | case3 a b rest h ih =>
    obtain ⟨t, ht⟩ := fixGluedL_head b rest
    rw [fixGluedL, if_pos h, ht]
    show noGlue (a :: ' ' :: b :: t) = true
    have h1 : (' ' : Char).isUpper = false := rfl
    have h2 : (' ' : Char).isLower = false := rfl
    simp only [noGlue, h1, h2, Bool.and_false, Bool.false_and, Bool.not_false, Bool.true_and]
    rw [← ht]
    exact ih
  | case4 a b rest h ih =>
    obtain ⟨t, ht⟩ := fixGluedL_head b rest
    rw [fixGluedL, if_neg h, ht]
    show noGlue (a :: b :: t) = true
    have heq : noGlue (a :: b :: t) = (!(a.isLower && b.isUpper) && noGlue (b :: t)) := rfl
    have hfalse : (a.isLower && b.isUpper) = false := by
      cases hx : (a.isLower && b.isUpper)
      · rfl
      · exact absurd hx h
    rw [heq, hfalse, ← ht]
    simp [ih]

theorem fixGluedL_of_noGlue (l : List Char) (h : noGlue l = true) : fixGluedL l = l := by
  induction l using fixGluedL.induct with
  | case1 => rfl
  | case2 c => rfl
  | case3 a b rest hab ih =>
    exfalso
    have h' : (!(a.isLower && b.isUpper)) = true := by
      have heq : noGlue (a :: b :: rest) = (!(a.isLower && b.isUpper) && noGlue (b :: rest)) := rfl
      rw [heq, Bool.and_eq_true] at h
      exact h.1
    rw [hab] at h'
    simp at h'
  | case4 a b rest hab ih =>
    simp only [noGlue, Bool.and_eq_true] at h
    rw [fixGluedL, if_neg hab, ih h.2]

theorem fixGluedL_idem (l : List Char) : fixGluedL (fixGluedL l) = fixGluedL l :=
  fixGluedL_of_noGlue _ (noGlue_fixGluedL l)

/-! ## Lemmas on sup-tag removal -/

theorem isSup_remove_sup_tags (t : Node) : (remove_sup_tags t).isSup = t.isSup := by
  cases t <;> rfl

mutual
theorem noSup_remove_sup_tags :
    ∀ t : Node, (descendants (remove_sup_tags t)).any Node.isSup = false
  | .text _ => rfl
  | .elem n c h ch => by
    show (descendantsList (removeSupList ch)).any Node.isSup = false
    exact noSup_removeSupList ch

theorem noSup_removeSupList :
    ∀ ch : List Node, (descendantsList (removeSupList ch)).any Node.isSup = false
  | [] => rfl
  | x :: xs => by
    by_cases hx : x.isSup = true
    · have heq : removeSupList (x :: xs) = removeSupList xs := by
        rw [removeSupList, if_pos hx]
      rw [heq]
      exact noSup_removeSupList xs
    · have heq : removeSupList (x :: xs) = remove_sup_tags x :: removeSupList xs := by
        rw [removeSupList, if_neg hx]
      rw [heq]
      have hdl : descendantsList (remove_sup_tags x :: removeSupList xs) =
          remove_sup_tags x :: (descendants (remove_sup_tags x) ++ descendantsList (removeSupList xs)) := rfl
      rw [hdl, List.any_cons, List.any_append]
      rw [isSup_remove_sup_tags x]
      rw [noSup_remove_sup_tags x, noSup_removeSupList xs]
      simp only [Bool.or_false]
      cases hy : x.isSup
      · rfl
      · exact absurd hy hx
end

theorem hasSup_remove_sup_tags (t : Node) : hasSup (remove_sup_tags t) = false :=
  noSup_remove_sup_tags t

theorem remove_sup_tags_ne (t : Node) (h : hasSup t = true) : remove_sup_tags t ≠ t := by
  intro he
  have hns := hasSup_remove_sup_tags t
  rw [he, h] at hns
  cases hns

/-! ## Lemmas on the infobox row loop -/

theorem getLast?_cons_getD {α : Type} (v : α) (l : List α) (x : α) :
    ((v :: l).getLast?).getD x = (l.getLast?).getD v := by
  cases l with
  | nil => rfl
  | cons b l' =>
    rw [List.getLast?_cons_cons]
    have h1 : (b :: l').getLast? = some ((b :: l').getLast (by simp)) :=
      List.getLast?_eq_getLast _ _
    rw [h1]
    rfl

theorem stepRow_director (info : FilmInfo) (r : Node) :
    (stepRow info r).director = (dirUpd r).getD info.director := by
  unfold stepRow dirUpd qualHeader
  cases findFirst "th" r with
  | none => rfl
  | some h =>
    cases findFirst "td" r with
    | none => rfl
    | some c =>
      by_cases h1 : containsSubStr "directed by" (lowerStr (getTextStrip h)) = true
      · simp [h1]
      · by_cases h2 : containsSubStr "release date" (lowerStr (getTextStrip h)) = true
        · simp [h1, h2]
        · by_cases h3 : (lowerStr (getTextStrip h) = "country" ||
              lowerStr (getTextStrip h) = "countries" ||
              lowerStr (getTextStrip h) = "country of origin") = true
          · simp [h1, h2, h3]
          · by_cases h4 : containsSubStr "box office" (lowerStr (getTextStrip h)) = true
            · simp [h1, h2, h3, h4]
            · simp [h1, h2, h3, h4]

theorem stepRow_release_year (info : FilmInfo) (r : Node) :
    (stepRow info r).release_year = (yearUpd r).getD info.release_year := by
  unfold stepRow yearUpd qualHeader
  cases findFirst "th" r with
  | none => rfl
  | some h =>
    cases findFirst "td" r with
    | none => rfl
    | some c =>
      by_cases h1 : containsSubStr "directed by" (lowerStr (getTextStrip h)) = true
      · simp [h1]
      · by_cases h2 : containsSubStr "release date" (lowerStr (getTextStrip h)) = true
        · simp [h1, h2]
        · by_cases h3 : (lowerStr (getTextStrip h) = "country" ||
              lowerStr (getTextStrip h) = "countries" ||
              lowerStr (getTextStrip h) = "country of origin") = true
          · simp [h1, h2, h3]
          · by_cases h4 : containsSubStr "box office" (lowerStr (getTextStrip h)) = true
            · simp [h1, h2, h3, h4]
            · simp [h1, h2, h3, h4]

theorem stepRow_country (info : FilmInfo) (r : Node) :
    (stepRow info r).country = (countryUpd r).getD info.country := by
  unfold stepRow countryUpd qualHeader
  cases findFirst "th" r with
  | none => rfl
  | some h =>
    cases findFirst "td" r with
    | none => rfl
    | some c =>
      by_cases h1 : containsSubStr "directed by" (lowerStr (getTextStrip h)) = true
      · simp [h1]
      · by_cases h2 : containsSubStr "release date" (lowerStr (getTextStrip h)) = true
        · simp [h1, h2]
        · by_cases h3 : (lowerStr (getTextStrip h) = "country" ||
              lowerStr (getTextStrip h) = "countries" ||
              lowerStr (getTextStrip h) = "country of origin") = true
          · simp [h1, h2, h3]
          · by_cases h4 : containsSubStr "box office" (lowerStr (getTextStrip h)) = true
            · simp [h1, h2, h3, h4]
            · simp [h1, h2, h3, h4]

theorem stepRow_box_office (info : FilmInfo) (r : Node) :
    (stepRow info r).box_office = (boxUpd r).getD info.box_office := by
  unfold stepRow boxUpd qualHeader
  cases findFirst "th" r with
  | none => rfl
  | some h =>
    cases findFirst "td" r with
    | none => rfl
    | some c =>
      by_cases h1 : containsSubStr "directed by" (lowerStr (getTextStrip h)) = true
      · simp [h1]
      · by_cases h2 : containsSubStr "release date" (lowerStr (getTextStrip h)) = true
        · simp [h1, h2]
        · by_cases h3 : (lowerStr (getTextStrip h) = "country" ||
              lowerStr (getTextStrip h) = "countries" ||
              lowerStr (getTextStrip h) = "country of origin") = true
          · simp [h1, h2, h3]
          · by_cases h4 : containsSubStr "box office" (lowerStr (getTextStrip h)) = true
            · simp [h1, h2, h3, h4]
            · simp [h1, h2, h3, h4]

theorem foldl_stepRow_director (rows : List Node) :
    ∀ info : FilmInfo,
      (rows.foldl stepRow info).director = ((rows.filterMap dirUpd).getLast?).getD info.director := by
  induction rows with
  | nil => intro info; rfl
  | cons r rs ih =>
    intro info
    rw [List.foldl_cons, ih (stepRow info r), List.filterMap_cons]
    cases hu : dirUpd r with
    | none =>
      rw [stepRow_director, hu]
      rfl
    | some v =>
      rw [stepRow_director, hu, getLast?_cons_getD]
      rfl

theorem foldl_stepRow_release_year (rows : List Node) :
    ∀ info : FilmInfo,
      (rows.foldl stepRow info).release_year =
        ((rows.filterMap yearUpd).getLast?).getD info.release_year := by
  induction rows with
  | nil => intro info; rfl
  | cons r rs ih =>
    intro info
    rw [List.foldl_cons, ih (stepRow info r), List.filterMap_cons]
    cases hu : yearUpd r with
    | none =>
      rw [stepRow_release_year, hu]
      rfl
    | some v =>
      rw [stepRow_release_year, hu, getLast?_cons_getD]
      rfl

theorem foldl_stepRow_country (rows : List Node) :
    ∀ info : FilmInfo,
      (rows.foldl stepRow info).country = ((rows.filterMap countryUpd).getLast?).getD info.country := by
  induction rows with
  | nil => intro info; rfl
  | cons r rs ih =>
    intro info
    rw [List.foldl_cons, ih (stepRow info r), List.filterMap_cons]
    cases hu : countryUpd r with
    | none =>
      rw [stepRow_country, hu]
      rfl
    | some v =>
      rw [stepRow_country, hu, getLast?_cons_getD]
      rfl

theorem foldl_stepRow_box_office (rows : List Node) :
    ∀ info : FilmInfo,
      (rows.foldl stepRow info).box_office =
        ((rows.filterMap boxUpd).getLast?).getD info.box_office := by
  induction rows with
  | nil => intro info; rfl
  | cons r rs ih =>
    intro info
    rw [List.foldl_cons, ih (stepRow info r), List.filterMap_cons]
    cases hu : boxUpd r with
    | none =>
      rw [stepRow_box_office, hu]
      rfl
    | some v =>
      rw [stepRow_box_office, hu, getLast?_cons_getD]
      rfl

theorem get_film_info_page_fields (page : Node) :
    get_film_info_page page =
      ⟨((rowsOf page).filterMap dirUpd).getLast?.getD none,
       ((rowsOf page).filterMap yearUpd).getLast?.getD none,
       ((rowsOf page).filterMap countryUpd).getLast?.getD none,
       ((rowsOf page).filterMap boxUpd).getLast?.getD none⟩ := by
  unfold get_film_info_page rowsOf
  cases hib : (descendants page).find? isInfoboxTable with
  | none => rfl
  | some infobox =>
    show (findAll "tr" infobox).foldl stepRow initInfo =
      ⟨((findAll "tr" infobox).filterMap dirUpd).getLast?.getD none,
       ((findAll "tr" infobox).filterMap yearUpd).getLast?.getD none,
       ((findAll "tr" infobox).filterMap countryUpd).getLast?.getD none,
       ((findAll "tr" infobox).filterMap boxUpd).getLast?.getD none⟩
    have h1 := foldl_stepRow_director (findAll "tr" infobox) initInfo
    have h2 := foldl_stepRow_release_year (findAll "tr" infobox) initInfo
    have h3 := foldl_stepRow_country (findAll "tr" infobox) initInfo
    have h4 := foldl_stepRow_box_office (findAll "tr" infobox) initInfo
    cases hres : (findAll "tr" infobox).foldl stepRow initInfo with
    | mk d y c b =>
      rw [hres] at h1 h2 h3 h4
      simp only at h1 h2 h3 h4
      simp only [FilmInfo.mk.injEq]
      refine ⟨?_, ?_, ?_, ?_⟩
      · rw [h1]; rfl
      · rw [h2]; rfl
      · rw [h3]; rfl
      · rw [h4]; rfl

/-! ## Lemmas on the cell value selector -/

theorem firstChildLoop_eq (ch : List Node) : firstChildLoop ch = ch.findSome? childValueSpec := by
  induction ch with
  | nil => rfl
  | cons child rest ih =>
    rw [List.findSome?_cons]
    cases child with
    | text s =>
      by_cases h : pyStrip s ≠ ""
      · simp [firstChildLoop, childValueSpec, h]
      · simp [firstChildLoop, childValueSpec, h, ih]
    | elem n cls href cs =>
      by_cases h1 : (n = "style" || n = "script") = true
      · simp [firstChildLoop, childValueSpec, h1, ih]
      · by_cases h2 : getTextSepStrip (Node.elem n cls href cs) ≠ ""
        · simp [firstChildLoop, childValueSpec, h1, h2]
        · simp [firstChildLoop, childValueSpec, h1, h2, ih]

theorem extract_first_value_eq_spec (td : Node) :
    extract_first_value_from_cell td = cellValueSpec td := by
  show (match firstChildLoop (remove_sup_tags td).childNodes with
        | some v => v
        | none => clean_text (getTextSepStrip (remove_sup_tags td))) =
      ((remove_sup_tags td).childNodes.findSome? childValueSpec).getD
        (clean_text (getTextSepStrip (remove_sup_tags td)))
  rw [firstChildLoop_eq]
  cases h : (remove_sup_tags td).childNodes.findSome? childValueSpec with
  | none => rfl
  | some v => rfl

/-! ## Lemmas on the release-year scanner -/

theorem char_eq_iff_toNat (c d : Char) : c = d ↔ c.toNat = d.toNat := by
  constructor
  · intro h
    rw [h]
  · intro h
    apply Char.ext
    unfold Char.toNat at h
    exact UInt32.toNat.inj h

theorem isDigit_iff (c : Char) : c.isDigit = true ↔ 48 ≤ c.toNat ∧ c.toNat ≤ 57 := by
  simp only [Char.isDigit, Bool.and_eq_true, decide_eq_true_eq, Char.toNat]
  constructor
  · rintro ⟨h1, h2⟩
    exact ⟨h1, h2⟩
  · rintro ⟨h1, h2⟩
    exact ⟨h1, h2⟩

theorem yearPat_eq_spec (c₁ c₂ c₃ c₄ : Char) :
    yearPat c₁ c₂ c₃ c₄ = yearSpecPat c₁ c₂ c₃ c₄ := by
  rw [Bool.eq_iff_iff]
  unfold yearPat yearSpecPat digitVal
  have e1 : ('1' : Char).toNat = 49 := rfl
  have e2 : ('2' : Char).toNat = 50 := rfl
  have e8 : ('8' : Char).toNat = 56 := rfl
  have e9 : ('9' : Char).toNat = 57 := rfl
  have e0 : ('0' : Char).toNat = 48 := rfl
  simp only [Bool.and_eq_true, Bool.or_eq_true, decide_eq_true_eq, isDigit_iff,
    char_eq_iff_toNat, e1, e2, e8, e9, e0]
  omega

theorem findYearGo_eq (l : List Char) : ∀ prev, findYearGo prev l = findYearSpecGo prev l := by
  induction l with
  | nil => intro prev; rfl
  | cons c₁ tail ih =>
    intro prev
    cases tail with
    | nil => rfl
    | cons c₂ t2 =>
      cases t2 with
      | nil => rfl
      | cons c₃ t3 =>
        cases t3 with
        | nil => rfl
        | cons c₄ rest =>
          simp only [findYearGo, findYearSpecGo, yearPat_eq_spec]
          split
          · rfl
          · exact ih (some c₁)

/-! ## Lemmas on the dead newline delimiter -/

theorem cleanTextL_no_newline (l : List Char) : ∀ c ∈ cleanTextL l, c ≠ '\n' := by
  intro c hc he
  subst he
  have h := cleanTextL_space_is_space l '\n' hc (by decide)
  exact absurd h (by decide)

theorem firstSeg_eq_of_no_newline (l : List Char) (h : ∀ c ∈ l, c ≠ '\n') :
    firstSegNLSemi l = firstSegSemi l := by
  induction l with
  | nil => rfl
  | cons c rest ih =>
    have hc : c ≠ '\n' := h c (by simp)
    have ihr := ih (fun d hd => h d (by simp [hd]))
    simp only [firstSegNLSemi, firstSegSemi, Bool.not_or] at ihr ⊢
    by_cases hc2 : c = ';'
    · subst hc2
      simp [List.takeWhile_cons]
    · simp [List.takeWhile_cons, hc, hc2, ihr]

theorem extract_release_year_eq_semi (td : Node) :
    extract_release_year td = extract_release_year_semi td := by
  show findYear (firstSegNLSemi (clean_text (getTextSepStrip (remove_sup_tags td))).data) =
      findYear (firstSegSemi (clean_text (getTextSepStrip (remove_sup_tags td))).data)
  rw [firstSeg_eq_of_no_newline]
  intro c hc
  exact cleanTextL_no_newline _ c hc

/-! ## Lemmas on missing tables and rows -/

theorem get_film_info_page_no_infobox (page : Node)
    (h : (descendants page).find? isInfoboxTable = none) :
    get_film_info_page page = initInfo := by
  unfold get_film_info_page
  rw [h]

theorem stepRow_skip (info : FilmInfo) (row : Node)
    (h : findFirst "th" row = none ∨ findFirst "td" row = none) :
    stepRow info row = info := by
  rcases h with h | h
  · unfold stepRow
    rw [h]
  · unfold stepRow
    cases hth : findFirst "th" row with
    | none => rfl
    | some hd =>
      rw [h]

theorem foldl_stepRow_skip (rows : List Node)
    (h : ∀ row ∈ rows, findFirst "th" row = none ∨ findFirst "td" row = none) :
    ∀ info : FilmInfo, rows.foldl stepRow info = info := by
  induction rows with
  | nil => intro info; rfl
  | cons r rs ih =>
    intro info
    rw [List.foldl_cons, stepRow_skip info r (h r (by simp))]
    exact ih (fun u hu => h u (by simp [hu])) info

theorem get_film_info_page_no_cells (page : Node)
    (h : ∀ row ∈ rowsOf page, findFirst "th" row = none ∨ findFirst "td" row = none) :
    get_film_info_page page = initInfo := by
  unfold get_film_info_page
  cases hib : (descendants page).find? isInfoboxTable with
  | none => rfl
  | some ib =>
    apply foldl_stepRow_skip
    intro row hrow
    apply h
    unfold rowsOf
    rw [hib]
    exact hrow

theorem extract_films_no_table (fetch : String → Option Node) (soup : Node)
    (h : (descendants soup).filter isWikitable = []) :
    extract_films fetch soup = .error .attributeError := by
  simp [extract_films, h]

/-! ## Claim theorems -/

/-- C1 counterexample: on a box-office cell whose distinct stripped text
fragments are `["$2", ".264", " billion"]`, the extractor returns
`"$2 billion"`, not the claimed `"$2.264 billion"`. -/
theorem c1_counterexample :
    boxOfficeFromFragments ["$2", ".264", " billion"] = "$2 billion" ∧
    boxOfficeFromFragments ["$2", ".264", " billion"] ≠ "$2.264 billion" := by
  constructor
  · decide
  · decide

/-- C1 (amended): the box-office extractor joins the fragments with
single spaces, so the currency regex matches only `"$2"` (it stops at
the space before `".264"`); the unit is `"billion"` and the result is
`"$2 billion"`. -/
theorem c1_box_office_amended :
    extract_box_office tdBox = "$2 billion" ∧
    boxOfficeFromFragments ["$2", ".264", " billion"] = "$2 billion" := by
  constructor
  · decide
  · decide

/-- C2 counterexample: on a listing page with no table, `extract_films`
raises an `AttributeError` (from `None.find`); it does not return an
empty result set. -/
theorem c2_counterexample :
    extract_films (fun _ => none) soupNoTable = .error .attributeError ∧
    (Except.error PyErr.attributeError : Except PyErr (List Film)) ≠ .ok [] := by
  constructor
  · rfl
  · simp

/-- C2 (amended): detail-page parse failures never raise and resolve to
null fields — a page without an infobox, or whose infobox rows all lack
a header or data cell, yields the all-null record — but when the listing
page has no wikitable table, the listing extractor raises an
`AttributeError` instead of returning an empty result set. -/
theorem c2_parse_failures_amended :
    (∀ page : Node, (descendants page).find? isInfoboxTable = none →
      get_film_info_page page = initInfo) ∧
    (∀ page : Node,
      (∀ row ∈ rowsOf page, findFirst "th" row = none ∨ findFirst "td" row = none) →
      get_film_info_page page = initInfo) ∧
    (∀ (fetch : String → Option Node) (soup : Node),
      (descendants soup).filter isWikitable = [] →
      extract_films fetch soup = .error .attributeError) :=
  ⟨get_film_info_page_no_infobox, get_film_info_page_no_cells, extract_films_no_table⟩

/-- C2 witness: the amended statement applied to concrete pages. -/
theorem c2_witness :
    get_film_info_page pageNoInfobox = initInfo ∧
    get_film_info_page pageHeaderOnly = initInfo ∧
    extract_films (fun _ => none) (Node.elem "html" none none []) = .error .attributeError := by
  refine ⟨?_, ?_, ?_⟩
  · exact c2_parse_failures_amended.1 pageNoInfobox rfl
  · refine c2_parse_failures_amended.2.1 pageHeaderOnly ?_
    intro row hrow
    rw [show rowsOf pageHeaderOnly = [rowHeaderOnly] from rfl] at hrow
    rw [List.mem_singleton] at hrow
    subst hrow
    exact Or.inr rfl
  · exact c2_parse_failures_amended.2.2 (fun _ => none) (Node.elem "html" none none []) rfl

/-- C3 counterexample: on a detail page whose infobox has two
`Directed by` rows (`"Alice Smith"` then `"Bob Jones"`), the extracted
director is the second row's value, not the first's. -/
theorem c3_counterexample :
    (get_film_info_page pageTwoDirectors).director = some "Bob Jones" ∧
    (get_film_info_page pageTwoDirectors).director ≠ some "Alice Smith" := by
  constructor
  · decide
  · decide

/-- C3 (amended): for every detail page, each of the four extracted
fields is taken from the LAST matching infobox row in document order —
every matching row overwrites the previous value (for release date,
possibly with null). -/
theorem c3_last_match_amended (page : Node) :
    get_film_info_page page =
      ⟨((rowsOf page).filterMap dirUpd).getLast?.getD none,
       ((rowsOf page).filterMap yearUpd).getLast?.getD none,
       ((rowsOf page).filterMap countryUpd).getLast?.getD none,
       ((rowsOf page).filterMap boxUpd).getLast?.getD none⟩ :=
  get_film_info_page_fields page

/-- C4: the release-year extractor normalizes the full cell text, keeps
the first newline/semicolon segment, and returns the first standalone
4-digit year between 1800 and 2099 in it (or null); in particular the
§8 example cell yields 1975. -/
theorem c4_release_year :
    (∀ td : Node, extract_release_year td = release_year_spec td) ∧
    extract_release_year tdRelDate = some 1975 := by
  constructor
  · intro td
    exact findYearGo_eq _ none
  · decide

/-- C5 counterexample: the Normalizer is not idempotent — removing the
inner marker of `"[1[2]3]"` creates the fresh marker `"[13]"`, which a
second pass removes. -/
theorem c5_counterexample :
    clean_text "[1[2]3]" = "[13]" ∧
    clean_text (clean_text "[1[2]3]") = "" ∧
    clean_text (clean_text "[1[2]3]") ≠ clean_text "[1[2]3]" := by
  refine ⟨?_, ?_, ?_⟩
  · decide
  · decide
  · decide

/-- C5 (amended): the Normalizer is idempotent on every string whose
normalized form contains no bracketed-integer substring, i.e. whenever
the footnote pass fixes the normalized string. -/
theorem c5_idempotent_amended (s : String)
    (h : stripFootnotes (clean_text s) = clean_text s) :
    clean_text (clean_text s) = clean_text s := by
  have hdata : stripFootnotesL (clean_text s).data = (clean_text s).data := congrArg String.data h
  show (⟨cleanTextL (clean_text s).data⟩ : String) = clean_text s
  have h1 : cleanTextL (clean_text s).data = collapseWS (stripFootnotesL (clean_text s).data) := rfl
  rw [h1, hdata]
  have h2 : (clean_text s).data = collapseWS (stripFootnotesL s.data) := rfl
  rw [h2, collapseWS_idem]
  rfl

/-- C5 witness: the amended statement applied to a concrete string. -/
theorem c5_witness :
    stripFootnotes (clean_text "a  b") = clean_text "a  b" ∧
    clean_text (clean_text "a  b") = clean_text "a  b" :=
  ⟨by decide, c5_idempotent_amended "a  b" (by decide)⟩

/-- C6: the Normalizer removes bracketed-integer substrings, collapses
every whitespace run to a single space and trims: the two §8 examples
hold, every output is whitespace-normalized (no leading/trailing or
adjacent whitespace, all whitespace is a plain space), and the
non-whitespace characters are exactly those left by footnote removal. -/
theorem c6_normalizer :
    clean_text "Revenue[2][13]" = "Revenue" ∧
    clean_text "A   B\n\tC" = "A B C" ∧
    (∀ s : String, wsNormalizedL (clean_text s).data = true) ∧
    (∀ s : String, (clean_text s).data.filter (fun c => !isSpaceChar c) =
      (stripFootnotesL s.data).filter (fun c => !isSpaceChar c)) := by
  refine ⟨by decide, by decide, ?_, ?_⟩
  · intro s
    exact cleanTextL_wsNormalized s.data
  · intro s
    exact collapseWS_filter (stripFootnotesL s.data)

/-- C7: the camelcase repair maps `"JohnSmith"` to `"John Smith"`,
leaves `"John Smith"` unchanged, and is idempotent on every string. -/
theorem c7_fix_glued :
    fix_glued_names "JohnSmith" = "John Smith" ∧
    fix_glued_names "John Smith" = "John Smith" ∧
    ∀ s : String, fix_glued_names (fix_glued_names s) = fix_glued_names s := by
  refine ⟨by decide, by decide, ?_⟩
  intro s
  show (⟨fixGluedL (fix_glued_names s).data⟩ : String) = ⟨fixGluedL s.data⟩
  have h : (fix_glued_names s).data = fixGluedL s.data := rfl
  rw [h, fixGluedL_idem]

/-- C8: the Cell Value Selector returns the normalized text of the first
non-style/script direct child with nonempty text, falling back to the
whole fragment's normalized text; on a cell with two linked countries it
returns only the first country. -/
theorem c8_cell_value :
    (∀ td : Node, extract_first_value_from_cell td = cellValueSpec td) ∧
    extract_first_value_from_cell tdTwoCountries = "France" :=
  ⟨extract_first_value_eq_spec, by decide⟩

/-- C9: the newline delimiter of the release-year split is dead code —
whitespace collapse runs first, so splitting on semicolons only gives
the same function, and a year after a raw newline is still found. -/
theorem c9_newline_dead_code :
    (∀ td : Node, extract_release_year td = extract_release_year_semi td) ∧
    extract_release_year tdNewlineYear = some 1999 :=
  ⟨extract_release_year_eq_semi, by decide⟩

/-- C10: each field extractor and the Cell Value Selector destructively
remove the `<sup>` descendants of their argument: the fragment's final
state is `remove_sup_tags` of its initial state, which differs from the
initial state whenever a `<sup>` element is present. -/
theorem c10_extractors_mutate (td : Node) (h : hasSup td = true) :
    (extract_director_st td).2 = remove_sup_tags td ∧
    (extract_country_st td).2 = remove_sup_tags td ∧
    (extract_release_year_st td).2 = remove_sup_tags td ∧
    (extract_box_office_st td).2 = remove_sup_tags td ∧
    (extract_first_value_from_cell_st td).2 = remove_sup_tags td ∧
    (extract_director_st td).2 ≠ td ∧
    (extract_country_st td).2 ≠ td ∧
    (extract_release_year_st td).2 ≠ td ∧
    (extract_box_office_st td).2 ≠ td ∧
    (extract_first_value_from_cell_st td).2 ≠ td := by
  have hne := remove_sup_tags_ne td h
  exact ⟨rfl, rfl, rfl, rfl, rfl, hne, hne, hne, hne, hne⟩

/-- C10 witness: the mutation statement applied to a concrete cell with
a footnote marker. -/
theorem c10_witness :
    hasSup tdWithSup = true ∧ (extract_director_st tdWithSup).2 ≠ tdWithSup := by
  refine ⟨rfl, ?_⟩
  exact (c10_extractors_mutate tdWithSup rfl).2.2.2.2.2.1
